import Mathlib

/-!
Shallow embedding of the ETL orchestration core of the crypto-ingestion
backend: the token-bucket rate limiter (`core/rate_limiter.py`), the
CoinGecko transform and validation (`ingestion/coingecko.py`,
`schemas/coin.py`), the normalized-coin upsert, checkpoint and run-record
bookkeeping and the retry loop of `BaseETL` (`ingestion/base.py`), and the
multi-source orchestrator (`services/etl_service.py`).

Modelling conventions: Python floats are embedded as `ℚ` (the arithmetic the
code performs on them is plain field arithmetic and comparisons);
`datetime.utcnow()` timestamps are abstract `Nat` instants, one per
transaction block; a database session is explicit state, committed on normal
exit of `get_db_context` and rolled back when an exception escapes the block
(`core/database.py`); Python exceptions are `Except String` values; the
abstract methods of `BaseETL` (`extract`, `transform`, `load_raw`) and the
possibility of the persistence layer itself raising are behaviour parameters
of a `Pipeline` record.
-/

namespace Spec2Proof

/-! ## RateLimiter (`core/rate_limiter.py`)

State of one token bucket: `rate_limit` is the configured requests-per-minute
capacity (a Python `int`), `tokens` the current token count (a Python
`float`), `last_update` the wall-clock instant of the last refill. -/

structure RateLimiter where
  rate_limit : Int
  tokens : ℚ
  last_update : ℚ
  deriving Repr, DecidableEq

namespace RateLimiter

/-- `RateLimiter.__init__`: the bucket starts full (`tokens = float(rate_limit)`)
with `last_update = time.time()` (the construction instant `now`). -/
def init (rate_limit : Int) (now : ℚ) : RateLimiter :=
  { rate_limit := rate_limit, tokens := (rate_limit : ℚ), last_update := now }

/-- `RateLimiter.acquire(tokens)` called at wall-clock instant `now`: refill by
`time_passed * rate_limit / 60` capped at `rate_limit`, stamp `last_update`,
then deduct and succeed iff the refilled count covers the request. Returns the
Python return value paired with the mutated limiter. -/
def acquire (s : RateLimiter) (tokens : Int) (now : ℚ) : Bool × RateLimiter :=
  let time_passed : ℚ := now - s.last_update
  let refilled : ℚ := min (s.rate_limit : ℚ) (s.tokens + time_passed * (s.rate_limit : ℚ) / 60)
  if (tokens : ℚ) ≤ refilled then
    (true, { s with tokens := refilled - (tokens : ℚ), last_update := now })
  else
    (false, { s with tokens := refilled, last_update := now })

/-- A sequence of `acquire` calls, each given as (instant, tokens requested),
applied in order to the bucket. -/
def acquireSeq (s : RateLimiter) (calls : List (ℚ × Int)) : RateLimiter :=
  calls.foldl (fun st c => (st.acquire c.2 c.1).2) s

/-- The call sequence is well-formed for a bucket last refilled at `t`:
wall-clock instants never decrease and every request is for at least one
token (`acquire`'s default and the only use in the repository is `n = 1`). -/
def validCalls : ℚ → List (ℚ × Int) → Bool
  | _, [] => true
  | t, c :: cs => (t ≤ c.1 && 1 ≤ c.2) && validCalls c.1 cs

end RateLimiter

/-- One `acquire` step keeps `0 ≤ tokens ≤ rate_limit` when the clock did not
run backwards and at least one token is requested; it also stamps
`last_update := now` and leaves `rate_limit` unchanged. -/
theorem acquire_inv (s : RateLimiter) (n : Int) (now : ℚ)
    (hrl : 0 ≤ s.rate_limit) (hlo : 0 ≤ s.tokens) (hhi : s.tokens ≤ (s.rate_limit : ℚ))
    (hn : 1 ≤ n) (ht : s.last_update ≤ now) :
    0 ≤ (s.acquire n now).2.tokens ∧
    (s.acquire n now).2.tokens ≤ ((s.acquire n now).2.rate_limit : ℚ) ∧
    (s.acquire n now).2.last_update = now ∧
    (s.acquire n now).2.rate_limit = s.rate_limit := by
  have hrlQ : (0 : ℚ) ≤ (s.rate_limit : ℚ) := by exact_mod_cast hrl
  have hrefill : (0 : ℚ) ≤ (now - s.last_update) * (s.rate_limit : ℚ) / 60 := by
    have h1 : (0 : ℚ) ≤ now - s.last_update := by linarith
    positivity
  have hr0 : 0 ≤ min (s.rate_limit : ℚ)
      (s.tokens + (now - s.last_update) * (s.rate_limit : ℚ) / 60) :=
    le_min hrlQ (by linarith)
  have hrcap : min (s.rate_limit : ℚ)
      (s.tokens + (now - s.last_update) * (s.rate_limit : ℚ) / 60) ≤ (s.rate_limit : ℚ) :=
    min_le_left _ _
  unfold RateLimiter.acquire
  by_cases h : (n : ℚ) ≤ min (s.rate_limit : ℚ)
      (s.tokens + (now - s.last_update) * (s.rate_limit : ℚ) / 60)
  · have hnQ : (1 : ℚ) ≤ (n : ℚ) := by exact_mod_cast hn
    simp only [h, if_pos]
    refine ⟨by linarith, by linarith, ?_, ?_⟩ <;> trivial
  · simp only [h, if_neg, not_false_iff]
    refine ⟨hr0, hrcap, ?_, ?_⟩ <;> trivial

/-- The bucket invariant is preserved by any well-formed call sequence, for any
starting state satisfying it; the configured capacity never changes. -/
theorem acquireSeq_inv (calls : List (ℚ × Int)) :
    ∀ s : RateLimiter, 0 ≤ s.rate_limit → 0 ≤ s.tokens → s.tokens ≤ (s.rate_limit : ℚ) →
    RateLimiter.validCalls s.last_update calls = true →
    0 ≤ (s.acquireSeq calls).tokens ∧
    (s.acquireSeq calls).tokens ≤ ((s.acquireSeq calls).rate_limit : ℚ) ∧
    (s.acquireSeq calls).rate_limit = s.rate_limit := by
  induction calls with
  | nil =>
    intro s hrl hlo hhi _
    exact ⟨hlo, hhi, rfl⟩
  | cons c cs ih =>
    intro s hrl hlo hhi hvalid
    simp only [RateLimiter.validCalls, Bool.and_eq_true, decide_eq_true_eq] at hvalid
    obtain ⟨⟨ht, hn⟩, hcs⟩ := hvalid
    have hstep := acquire_inv s c.2 c.1 hrl hlo hhi hn ht
    obtain ⟨h0, h1, h2, h3⟩ := hstep
    have hrec := ih (s.acquire c.2 c.1).2 (h3 ▸ hrl) h0 h1 (by rw [h2]; exact hcs)
    have hfold : s.acquireSeq (c :: cs) = ((s.acquire c.2 c.1).2).acquireSeq cs := rfl
    rw [hfold]
    exact ⟨hrec.1, hrec.2.1, hrec.2.2.trans h3⟩

/-- C10: for every `RateLimiter` constructed with `rate_limit ≥ 0`, after any
sequence of `acquire(n)` calls with `n ≥ 1` made at nondecreasing wall-clock
instants, the token count satisfies `0 ≤ tokens ≤ rate_limit`: the refill is
capped at `rate_limit` and tokens are deducted only when enough are present. -/
theorem rate_limiter_tokens_bounded (rate_limit : Int) (t0 : ℚ) (calls : List (ℚ × Int))
    (hrl : 0 ≤ rate_limit)
    (hcalls : RateLimiter.validCalls t0 calls = true) :
    0 ≤ ((RateLimiter.init rate_limit t0).acquireSeq calls).tokens ∧
    ((RateLimiter.init rate_limit t0).acquireSeq calls).tokens ≤ (rate_limit : ℚ) := by
  have h := acquireSeq_inv calls (RateLimiter.init rate_limit t0) hrl
    (by show (0 : ℚ) ≤ (rate_limit : ℚ); exact_mod_cast hrl) (le_refl _) hcalls
  refine ⟨h.1, ?_⟩
  have h2 := h.2.1
  rw [h.2.2] at h2
  exact h2

/-- C10 witness: a capacity-2 bucket after three 1-token requests at instants
0, 1/2 and 1 still holds between 0 and 2 tokens. -/
theorem rate_limiter_tokens_bounded_witness :
    0 ≤ ((RateLimiter.init 2 0).acquireSeq [(0, 1), (1/2, 1), (1, 1)]).tokens ∧
    ((RateLimiter.init 2 0).acquireSeq [(0, 1), (1/2, 1), (1, 1)]).tokens ≤ ((2 : Int) : ℚ) :=
  rate_limiter_tokens_bounded 2 0 [(0, 1), (1/2, 1), (1, 1)] (by norm_num)
    (by norm_num [RateLimiter.validCalls])

/-- C6: `acquire(n)` first refills the bucket by `elapsed * capacity / 60`
tokens capped at the capacity and stamps the refill timestamp, then succeeds
and deducts `n` iff the refilled count is at least `n`, returning failure
without blocking otherwise; consequently a limiter constructed with
`rate_limit = 1` grants exactly one immediate `acquire()` and rejects the next
`acquire()` called within the same second. -/
theorem acquire_refill_then_deduct (s : RateLimiter) (n : Int) (now t0 t1 t2 : ℚ)
    (h01 : t0 ≤ t1) (h12 : t1 ≤ t2) (h2 : t2 < t1 + 1) :
    (((s.acquire n now).1 = true ↔
        (n : ℚ) ≤ min (s.rate_limit : ℚ)
          (s.tokens + (now - s.last_update) * (s.rate_limit : ℚ) / 60)) ∧
      (s.acquire n now).2.last_update = now ∧
      (s.acquire n now).2.tokens =
        (let refilled := min (s.rate_limit : ℚ)
          (s.tokens + (now - s.last_update) * (s.rate_limit : ℚ) / 60);
         if (n : ℚ) ≤ refilled then refilled - (n : ℚ) else refilled)) ∧
    ((RateLimiter.init 1 t0).acquire 1 t1).1 = true ∧
    (((RateLimiter.init 1 t0).acquire 1 t1).2.acquire 1 t2).1 = false := by
  constructor
  · unfold RateLimiter.acquire
    by_cases h : (n : ℚ) ≤ min (s.rate_limit : ℚ)
        (s.tokens + (now - s.last_update) * (s.rate_limit : ℚ) / 60)
    · simp [h]
    · simp [h]
  · have hfirst : (RateLimiter.init 1 t0).acquire 1 t1 =
        (true, { rate_limit := 1, tokens := 0, last_update := t1 }) := by
      unfold RateLimiter.init RateLimiter.acquire
      have hmin : min ((1 : Int) : ℚ)
          (((1 : Int) : ℚ) + (t1 - t0) * ((1 : Int) : ℚ) / 60) = 1 := by
        rw [min_eq_left (by push_cast; linarith)]
        norm_num
      simp only [hmin]
      norm_num
    constructor
    · rw [hfirst]
    · rw [hfirst]
      unfold RateLimiter.acquire
      have hmin : min ((1 : Int) : ℚ) ((0 : ℚ) + (t2 - t1) * ((1 : Int) : ℚ) / 60) =
          (t2 - t1) / 60 := by
        rw [min_eq_right (by push_cast; linarith)]
        push_cast
        ring
      simp only [hmin]
      have hlt : ¬ ((1 : Int) : ℚ) ≤ (t2 - t1) / 60 := by push_cast; linarith
      rw [if_neg hlt]

/-- C6 witness: with `rate_limit = 1`, the first `acquire()` at instant 0
succeeds and a second `acquire()` half a second later is rejected. -/
theorem acquire_refill_then_deduct_witness :
    ((RateLimiter.init 1 0).acquire 1 0).1 = true ∧
    (((RateLimiter.init 1 0).acquire 1 0).2.acquire 1 (1/2)).1 = false := by
  have h := acquire_refill_then_deduct (RateLimiter.init 1 0) 1 0 0 0 (1/2)
    (by norm_num) (by norm_num) (by norm_num)
  exact ⟨h.2.1, h.2.2⟩

/-! ## Data model (`core/models.py`)

Rows of the four tables the ETL core writes. `id` primary keys are not
modelled (list position stands for row identity); JSON payloads are the raw
item itself. -/

structure Coin where
  coin_id : String
  symbol : String
  name : String
  current_price : Option ℚ
  market_cap : Option ℚ
  volume_24h : Option ℚ
  price_change_24h : Option ℚ
  source : String
  rank : Option Int
  last_updated : Option Nat
  created_at : Nat
  updated_at : Nat
  deriving Repr, DecidableEq

structure ETLCheckpoint where
  source : String
  last_run_at : Option Nat
  last_success_at : Option Nat
  last_failure_at : Option Nat
  status : String
  records_processed : Nat
  error_message : Option String
  run_metadata : Option String
  created_at : Nat
  updated_at : Nat
  deriving Repr, DecidableEq

structure ETLRun where
  run_id : String
  source : String
  status : String
  records_processed : Nat
  duration_seconds : Int
  started_at : Nat
  completed_at : Nat
  error_message : Option String
  deriving Repr, DecidableEq

/-! ## CoinGecko raw items and validation (`schemas/coin.py`, `ingestion/coingecko.py`) -/

/-- One JSON object of the CoinGecko `/coins/markets` response, restricted to
the keys `CoinGeckoETL.transform` and `load_raw` read. `none` stands for an
absent key (the code reads every key with `.get`; a key present with JSON
`null` leads to the same per-item outcome: the numeric fields become `None`
either way, and a `null` required string makes the item fail validation just
as the non-`null` defaults `''` do). -/
structure GeckoItem where
  id : Option String
  symbol : Option String
  name : Option String
  current_price : Option ℚ
  market_cap : Option ℚ
  total_volume : Option ℚ
  price_change_percentage_24h : Option ℚ
  market_cap_rank : Option Int
  deriving Repr, DecidableEq

/-- A row of `raw_coingecko` (and structurally of the other raw tables):
unmodified audit copy of one extracted item. -/
structure RawRecord where
  coin_id : String
  raw_data : GeckoItem
  ingested_at : Nat
  deriving Repr, DecidableEq

/-- A validated `CoinCreate` instance as `model_dump` returns it. -/
structure CoinRecord where
  coin_id : String
  symbol : String
  name : String
  current_price : Option ℚ
  market_cap : Option ℚ
  volume_24h : Option ℚ
  price_change_24h : Option ℚ
  rank : Option Int
  source : String
  last_updated : Option Nat
  deriving Repr, DecidableEq

/-- Python's `str.upper()` on one character, restricted to ASCII case mapping
(every string the repository uppercases is a ticker symbol). -/
def py_upper_char (c : Char) : Char :=
  if 'a' ≤ c && c ≤ 'z' then Char.ofNat (c.toNat - 32) else c

/-- Python's `str.upper()` (ASCII case mapping). -/
def py_upper (s : String) : String := ⟨s.data.map py_upper_char⟩

/-- The `validate_numeric` validator of `CoinBase`: a present negative value
becomes `None`, anything else is returned unchanged. -/
def validate_numeric (v : Option ℚ) : Option ℚ :=
  match v with
  | none => none
  | some x => if x < 0 then none else some x

/-- `CoinCreate(**coin_data)`: the `Field(min_length=1)` constraints on
`coin_id`, `symbol` and `name`, the `symbol_uppercase` validator, and
`validate_numeric` on `current_price`, `market_cap`, `volume_24h` and
`price_change_24h`; `rank`, `source` and `last_updated` have no validator.
`none` models the constructor raising a ValidationError. -/
def CoinCreate (coin_id symbol name : String)
    (current_price market_cap volume_24h price_change_24h : Option ℚ)
    (rank : Option Int) (source : String) (last_updated : Option Nat) :
    Option CoinRecord :=
  if 1 ≤ coin_id.length && 1 ≤ symbol.length && 1 ≤ name.length then
    some { coin_id := coin_id, symbol := py_upper symbol, name := name,
           current_price := validate_numeric current_price,
           market_cap := validate_numeric market_cap,
           volume_24h := validate_numeric volume_24h,
           price_change_24h := validate_numeric price_change_24h,
           rank := rank, source := source, last_updated := last_updated }
  else none

namespace CoinGeckoETL

/-- The body of one iteration of `CoinGeckoETL.transform`'s loop: build the
candidate dict with `.get` defaults and an upper-cased symbol, validate it
with `CoinCreate`; `none` = the item was logged and skipped. -/
def validate_item (now : Nat) (item : GeckoItem) : Option CoinRecord :=
  CoinCreate (item.id.getD "") (py_upper (item.symbol.getD "")) (item.name.getD "")
    item.current_price item.market_cap item.total_volume
    item.price_change_percentage_24h item.market_cap_rank "coingecko" (some now)

/-- `CoinGeckoETL.transform`: per-item validation, invalid items dropped
individually, validated records collected in input order. -/
def transform (now : Nat) (raw_data : List GeckoItem) : List CoinRecord :=
  raw_data.filterMap (validate_item now)

/-- `CoinGeckoETL.load_raw`: one `RawCoinGecko` row added per raw item,
whatever the item contains. -/
def load_raw (table : List RawRecord) (now : Nat) (raw_data : List GeckoItem) :
    List RawRecord :=
  table ++ raw_data.map (fun item =>
    { coin_id := item.id.getD "unknown", raw_data := item, ingested_at := now })

end CoinGeckoETL

/-- `str.upper()` preserves the length of a string. -/
theorem py_upper_length (s : String) : (py_upper s).length = s.length := by
  unfold py_upper
  show (s.data.map py_upper_char).length = s.length
  rw [List.length_map]
  exact String.length_data s

/-- C4 (amended): for every raw item that `CoinGeckoETL.transform` accepts,
the resulting record has the upper-cased input symbol, non-empty `coin_id`,
`symbol` and `name`, and each of `current_price`, `market_cap`, `volume_24h`
and `price_change_24h` that was negative coerced to `null`; `rank` is carried
through unchanged — the `validate_numeric` validator does not cover it, so a
negative rank is NOT coerced to `null`. -/
theorem transform_validation_clamps (now : Nat) (item : GeckoItem) (rec : CoinRecord)
    (h : CoinGeckoETL.validate_item now item = some rec) :
    rec.symbol = py_upper (py_upper (item.symbol.getD "")) ∧
    rec.coin_id ≠ "" ∧ rec.symbol ≠ "" ∧ rec.name ≠ "" ∧
    (∀ x : ℚ, item.current_price = some x → x < 0 → rec.current_price = none) ∧
    (∀ x : ℚ, item.market_cap = some x → x < 0 → rec.market_cap = none) ∧
    (∀ x : ℚ, item.total_volume = some x → x < 0 → rec.volume_24h = none) ∧
    (∀ x : ℚ, item.price_change_percentage_24h = some x → x < 0 →
      rec.price_change_24h = none) ∧
    rec.rank = item.market_cap_rank := by
  unfold CoinGeckoETL.validate_item CoinCreate at h
  by_cases hg : (1 ≤ (item.id.getD "").length &&
      1 ≤ (py_upper (item.symbol.getD "")).length && 1 ≤ (item.name.getD "").length) = true
  · rw [if_pos hg] at h
    obtain ⟨h1, h2, h3⟩ : 1 ≤ (item.id.getD "").length ∧
        1 ≤ (py_upper (item.symbol.getD "")).length ∧ 1 ≤ (item.name.getD "").length := by
      simpa [Bool.and_eq_true, decide_eq_true_eq, and_assoc] using hg
    cases h
    refine ⟨rfl, ?_, ?_, ?_, ?_, ?_, ?_, ?_, rfl⟩
    · intro he
      dsimp only at he
      rw [he] at h1
      exact absurd h1 (by decide)
    · intro he
      dsimp only at he
      have hl := congrArg String.length he
      rw [py_upper_length] at hl
      have h0 : ("" : String).length = 0 := rfl
      omega
    · intro he
      dsimp only at he
      rw [he] at h3
      exact absurd h3 (by decide)
    · intro x hx hneg
      dsimp only
      simp [validate_numeric, hx, hneg]
    · intro x hx hneg
      dsimp only
      simp [validate_numeric, hx, hneg]
    · intro x hx hneg
      dsimp only
      simp [validate_numeric, hx, hneg]
    · intro x hx hneg
      dsimp only
      simp [validate_numeric, hx, hneg]
  · rw [if_neg hg] at h
    exact absurd h (by simp)

/-- A CoinGecko item that is valid in every respect except a negative
`market_cap_rank`. -/
def geckoItemNegRank : GeckoItem :=
  { id := some "bitcoin", symbol := some "BTC", name := some "Bitcoin",
    current_price := some 50000, market_cap := none, total_volume := none,
    price_change_percentage_24h := none, market_cap_rank := some (-1) }

/-- C4 counterexample: the claim says a negative `rank` is coerced to
absent/null, but `validate_numeric` does not cover `rank`: the item with
`market_cap_rank = -1` is accepted and its record keeps `rank = -1`,
not `null`. -/
theorem transform_rank_not_clamped :
    (CoinGeckoETL.validate_item 0 geckoItemNegRank).map CoinRecord.rank =
      some (some (-1)) := by decide

/-- A fully populated CoinGecko item with negative price and volume and a
negative rank. -/
def geckoItemEth : GeckoItem :=
  { id := some "ethereum", symbol := some "eth", name := some "Ethereum",
    current_price := some (-100), market_cap := some 5, total_volume := some (-3),
    price_change_percentage_24h := some (-2), market_cap_rank := some (-7) }

/-- The record `CoinGeckoETL.transform` produces for `geckoItemEth`. -/
def coinRecEth : CoinRecord :=
  { coin_id := "ethereum", symbol := "ETH", name := "Ethereum",
    current_price := none, market_cap := some 5, volume_24h := none,
    price_change_24h := none, rank := some (-7), source := "coingecko",
    last_updated := some 0 }

/-- C4 witness: on the concrete accepted item `geckoItemEth`, the produced
record has the upper-cased symbol, and its negative `current_price` was
clamped to `null` while its negative `rank` was carried through. -/
theorem transform_validation_clamps_witness :
    coinRecEth.symbol = py_upper (py_upper (geckoItemEth.symbol.getD "")) ∧
    coinRecEth.coin_id ≠ "" ∧
    coinRecEth.current_price = none ∧
    coinRecEth.rank = geckoItemEth.market_cap_rank := by
  have h := transform_validation_clamps 0 geckoItemEth coinRecEth (by decide)
  exact ⟨h.1, h.2.1, h.2.2.2.2.1 (-100) rfl (by norm_num),
    h.2.2.2.2.2.2.2.2⟩

/-- C5: an item failing validation is dropped individually — the batch's other
items transform exactly as they would without it, so a single bad item never
fails the whole transform — while `load_raw` still persists one raw row per
raw item of the batch, the invalid one included. -/
theorem transform_partial_item_tolerance (now : Nat) (xs ys : List GeckoItem)
    (bad : GeckoItem) (table : List RawRecord)
    (hbad : CoinGeckoETL.validate_item now bad = none) :
    CoinGeckoETL.transform now (xs ++ bad :: ys) =
      CoinGeckoETL.transform now xs ++ CoinGeckoETL.transform now ys ∧
    (CoinGeckoETL.load_raw table now (xs ++ bad :: ys)).length =
      table.length + (xs.length + 1 + ys.length) := by
  constructor
  · unfold CoinGeckoETL.transform
    rw [List.filterMap_append]
    simp [List.filterMap_cons, hbad]
  · unfold CoinGeckoETL.load_raw
    simp [List.length_append, List.length_map]
    omega

/-- A CoinGecko item missing the required `name` key. -/
def geckoItemNoName : GeckoItem :=
  { id := some "dogecoin", symbol := some "DOGE", name := none,
    current_price := some 1, market_cap := none, total_volume := none,
    price_change_percentage_24h := none, market_cap_rank := some 9 }

/-- C5 witness: a batch of 2 raw items of which 1 lacks a required field
yields exactly 1 normalized record while the raw-load count is 2. -/
theorem transform_partial_item_tolerance_witness :
    (CoinGeckoETL.transform 0 ([geckoItemEth] ++ geckoItemNoName :: []) =
       CoinGeckoETL.transform 0 [geckoItemEth] ++ CoinGeckoETL.transform 0 [] ∧
     (CoinGeckoETL.load_raw [] 0 ([geckoItemEth] ++ geckoItemNoName :: [])).length =
       List.length ([] : List RawRecord) + (1 + 1 + 0)) ∧
    (CoinGeckoETL.transform 0 [geckoItemEth, geckoItemNoName]).length = 1 ∧
    (CoinGeckoETL.load_raw [] 0 [geckoItemEth, geckoItemNoName]).length = 2 := by
  refine ⟨transform_partial_item_tolerance 0 [geckoItemEth] [] geckoItemNoName []
    (by decide), by decide, by decide⟩

/-! ## `BaseETL.load_normalized` — upsert into `coins` (`ingestion/base.py`) -/

/-- The `uq_coin_source` unique-key test: does existing `row` conflict with
incoming record `r` on `(coin_id, source)`? -/
def conflicts (r : CoinRecord) (row : Coin) : Bool :=
  row.coin_id == r.coin_id && row.source == r.source

/-- The `ON CONFLICT (coin_id, source) DO UPDATE` upsert of
`BaseETL.load_normalized` for one record at time `now`: on conflict overwrite
the mutable fields listed in `set_` and stamp `updated_at := now`
(`created_at` is not in `set_`); otherwise insert a fresh row whose
`created_at` and `updated_at` column defaults are `now`. -/
def upsert_one (table : List Coin) (r : CoinRecord) (now : Nat) : List Coin :=
  if table.any (conflicts r) then
    table.map (fun row =>
      if conflicts r row then
        { row with
          name := r.name, symbol := r.symbol,
          current_price := r.current_price, market_cap := r.market_cap,
          volume_24h := r.volume_24h, price_change_24h := r.price_change_24h,
          rank := r.rank, last_updated := r.last_updated, updated_at := now }
      else row)
  else
    table ++ [{
      coin_id := r.coin_id, symbol := r.symbol, name := r.name,
      current_price := r.current_price, market_cap := r.market_cap,
      volume_24h := r.volume_24h, price_change_24h := r.price_change_24h,
      source := r.source, rank := r.rank, last_updated := r.last_updated,
      created_at := now, updated_at := now }]

/-- The batch statement of `load_normalized`, record by record. -/
def upsert_batch (table : List Coin) (rs : List CoinRecord) (now : Nat) : List Coin :=
  rs.foldl (fun t r => upsert_one t r now) table

/-- The `coins` row holding exactly record `r`'s fields with the given
creation and update stamps. -/
def rowOf (r : CoinRecord) (created updated : Nat) : Coin :=
  { coin_id := r.coin_id, symbol := r.symbol, name := r.name,
    current_price := r.current_price, market_cap := r.market_cap,
    volume_24h := r.volume_24h, price_change_24h := r.price_change_24h,
    source := r.source, rank := r.rank, last_updated := r.last_updated,
    created_at := created, updated_at := updated }

/-- C3: on a table with no row for `(r.coin_id, r.source)`, the first
`load_normalized` upsert of `r` inserts one row with
`created_at = updated_at = t1`; applying it again with the unchanged record
at `t2 > t1` takes the on-conflict update path (the conflict test fires, no
row is added), leaves exactly one row for the key, advances `updated_at` to
`t2` and leaves every other field — `created_at` included — unchanged. -/
theorem load_normalized_idempotent (table : List Coin) (r : CoinRecord) (t1 t2 : Nat)
    (habsent : table.filter (conflicts r) = [])
    (hadv : t1 < t2) :
    upsert_one table r t1 = table ++ [rowOf r t1 t1] ∧
    (upsert_one table r t1).any (conflicts r) = true ∧
    upsert_one (upsert_one table r t1) r t2 = table ++ [rowOf r t1 t2] ∧
    (upsert_one (upsert_one table r t1) r t2).filter (conflicts r) = [rowOf r t1 t2] ∧
    (rowOf r t1 t2).created_at = (rowOf r t1 t1).created_at ∧
    (rowOf r t1 t1).updated_at < (rowOf r t1 t2).updated_at := by
  have hall : ∀ row ∈ table, conflicts r row = false := by
    intro a ha
    have := List.filter_eq_nil.mp habsent a ha
    simpa using this
  have hanyF : table.any (conflicts r) = false := by
    rw [Bool.eq_false_iff]
    intro hc
    rw [List.any_eq_true] at hc
    obtain ⟨x, hx, hcx⟩ := hc
    rw [hall x hx] at hcx
    exact Bool.false_ne_true hcx
  have hconf : ∀ u v : Nat, conflicts r (rowOf r u v) = true := by
    intro u v
    simp [conflicts, rowOf]
  have e1 : upsert_one table r t1 = table ++ [rowOf r t1 t1] := by
    unfold upsert_one
    rw [hanyF]
    rfl
  have hanyT : (table ++ [rowOf r t1 t1]).any (conflicts r) = true := by
    rw [List.any_eq_true]
    exact ⟨rowOf r t1 t1, by simp, hconf t1 t1⟩
  have e2 : upsert_one (table ++ [rowOf r t1 t1]) r t2 = table ++ [rowOf r t1 t2] := by
    unfold upsert_one
    rw [hanyT]
    simp only [if_true, List.map_append]
    congr 1
    · calc table.map _ = table.map id := by
            apply List.map_congr_left
            intro a ha
            simp [hall a ha]
          _ = table := List.map_id table
    · simp only [List.map_cons, List.map_nil, hconf t1 t1, if_true]
      rfl
  refine ⟨e1, by rw [e1]; exact hanyT, by rw [e1]; exact e2, ?_, rfl, hadv⟩
  rw [e1, e2, List.filter_append, habsent]
  simp [hconf t1 t2]

/-- C3 witness: upserting the concrete record produced from `geckoItemEth`
twice into the empty table, at times 1 and then 2, leaves exactly the one
row with `created_at = 1` and `updated_at = 2`. -/
theorem load_normalized_idempotent_witness :
    upsert_one [] coinRecEth 1 = [] ++ [rowOf coinRecEth 1 1] ∧
    (upsert_one [] coinRecEth 1).any (conflicts coinRecEth) = true ∧
    upsert_one (upsert_one [] coinRecEth 1) coinRecEth 2 = [] ++ [rowOf coinRecEth 1 2] ∧
    (upsert_one (upsert_one [] coinRecEth 1) coinRecEth 2).filter (conflicts coinRecEth) =
      [rowOf coinRecEth 1 2] ∧
    (rowOf coinRecEth 1 2).created_at = (rowOf coinRecEth 1 1).created_at ∧
    (rowOf coinRecEth 1 1).updated_at < (rowOf coinRecEth 1 2).updated_at :=
  load_normalized_idempotent [] coinRecEth 1 2 rfl (by decide)

/-! ## Checkpoint and run-record bookkeeping (`BaseETL`, `ingestion/base.py`)

The database visible to one ETL run: the `coins` table, the per-source
checkpoint table, the append-only run-history table and the raw audit table.
A `get_db_context` block is modelled as a function from the committed `DB` to
the next committed `DB`; when an exception escapes the block the session is
rolled back, so the pre-block `DB` survives unchanged. -/

structure DB where
  coins : List Coin
  checkpoints : List ETLCheckpoint
  etl_runs : List ETLRun
  raw_coingecko : List RawRecord
  deriving Repr, DecidableEq

/-- The per-object state of a `BaseETL` instance: fixed identity from
`__init__` (`source_name`, fresh `run_id`, `started_at`) plus the mutable
`records_processed` counter. This state lives on the Python object, not in
the database, so it survives a rolled-back attempt. -/
structure BaseETLState where
  source_name : String
  run_id : String
  started_at : Nat
  records_processed : Nat
  deriving Repr, DecidableEq

/-- SQLAlchemy's `query(...).first()` followed by attribute mutation: rewrite
the first list element satisfying `p` with `f`, leave everything else. -/
def updateFirst (p : α → Bool) (f : α → α) : List α → List α
  | [] => []
  | x :: xs => if p x then f x :: xs else x :: updateFirst p f xs

/-- The mutations `update_checkpoint` applies to an existing checkpoint row:
always `last_run_at`, `status`, `records_processed`, `updated_at`; on
`'success'` also `last_success_at` and a cleared `error_message`; on
`'failure'` also `last_failure_at` and the given `error_message`. -/
def apply_checkpoint_update (st : BaseETLState) (status : String)
    (error_message : Option String) (now : Nat) (c : ETLCheckpoint) : ETLCheckpoint :=
  let c1 := { c with
    last_run_at := some now, status := status,
    records_processed := st.records_processed, updated_at := now }
  if status == "success" then
    { c1 with last_success_at := some now, error_message := none }
  else if status == "failure" then
    { c1 with last_failure_at := some now, error_message := error_message }
  else c1

/-- `BaseETL.update_checkpoint`: mutate the (first) existing row for the
source in place, or add a fresh row with the column defaults. -/
def update_checkpoint (st : BaseETLState) (db : DB) (status : String)
    (error_message : Option String) (now : Nat) : DB :=
  if (db.checkpoints.find? (fun c => c.source == st.source_name)).isSome then
    { db with
      checkpoints := updateFirst (fun c => c.source == st.source_name) (apply_checkpoint_update st status error_message now) db.checkpoints }
  else
    { db with
      checkpoints := db.checkpoints ++ [{
        source := st.source_name,
        last_run_at := some now,
        last_success_at := if status == "success" then some now else none,
        last_failure_at := if status == "failure" then some now else none,
        status := status,
        records_processed := st.records_processed,
        error_message := error_message,
        run_metadata := none,
        created_at := now, updated_at := now }] }

/-- `BaseETL.create_run_record`: append one `ETLRun` row for this `run_id`. -/
def create_run_record (st : BaseETLState) (db : DB) (status : String)
    (error_message : Option String) (now : Nat) : DB :=
  { db with etl_runs := db.etl_runs ++ [{
      run_id := st.run_id,
      source := st.source_name,
      status := status,
      records_processed := st.records_processed,
      duration_seconds := (now : Int) - (st.started_at : Int),
      started_at := st.started_at,
      completed_at := now,
      error_message := error_message }] }

/-! ## The retry loop `BaseETL.run` (`ingestion/base.py`)

`extract`, `transform` and `load_raw` are abstract methods of `BaseETL`
(stateful Python code that may behave differently on each attempt and may
raise), so they are behaviour parameters indexed by the attempt number.
`load_exec_err`/`commit_err`/`finalize_err` model the persistence layer
raising inside `load_normalized`'s `db.execute`, at the attempt transaction's
commit, and inside the finalization block respectively (`some e` = the step
raises exception text `e`). -/

structure Pipeline (Raw : Type) where
  extract : Nat → Except String (List Raw)
  load_raw : Nat → DB → List Raw → Except String DB
  transform : Nat → List Raw → Except String (List CoinRecord)
  load_exec_err : Nat → Option String
  commit_err : Nat → Option String
  finalize_err : Option String

/-- The body of one iteration of `run`'s `while` loop, attempt index `k`,
every `datetime.utcnow()` of the block abstracted to the instant `now`:
extract, load raw, transform, upsert normalized (incrementing the object's
`records_processed` by the number of normalized records), write the
`'success'` checkpoint and run record, commit. The first component is the
committed database (or the exception text, in which case the transaction is
rolled back by `get_db_context` and the caller keeps the old database); the
second is the object state, which is NOT rolled back: `records_processed`
keeps its increment once `load_normalized` has run. -/
def runAttempt (p : Pipeline Raw) (st : BaseETLState) (db : DB) (k : Nat) (now : Nat) :
    Except String DB × BaseETLState :=
  match p.extract k with
  | .error e => (.error e, st)
  | .ok raw_data =>
    match p.load_raw k db raw_data with
    | .error e => (.error e, st)
    | .ok db1 =>
      match p.transform k raw_data with
      | .error e => (.error e, st)
      | .ok normalized_data =>
        match p.load_exec_err k with
        | some e => (.error e, st)
        | none =>
          let db2 := { db1 with coins := upsert_batch db1.coins normalized_data now }
          let st2 := { st with
            records_processed := st.records_processed + normalized_data.length }
          let db3 := update_checkpoint st2 db2 "success" none now
          let db4 := create_run_record st2 db3 "success" none now
          match p.commit_err k with
          | some e => (.error e, st2)
          | none => (.ok db4, st2)

/-- Outcome of the `while attempt < max_retries` loop: either some attempt
returned `True` from inside the `with` block, or the loop exhausted its
bound. Carries the final value of the Python `attempt` variable and, when
exhausted, of `last_error`. -/
inductive LoopResult where
  | success (db : DB) (st : BaseETLState) (attempt : Nat)
  | exhausted (db : DB) (st : BaseETLState) (attempt : Nat) (last_error : Option String)
  deriving Repr

/-- The `while attempt < max_retries` loop, `remaining` iterations left,
current attempt index `attempt`, attempt timestamps given by `times`. On an
exception the session is rolled back (`db` is kept) but the object state is
kept as mutated, `attempt` is incremented and `last_error` recorded; the
backoff `time.sleep` affects no modelled state. -/
def runLoop (p : Pipeline Raw) (times : Nat → Nat) :
    Nat → BaseETLState → DB → Nat → Option String → LoopResult
  | 0, st, db, attempt, last_error => .exhausted db st attempt last_error
  | remaining + 1, st, db, attempt, _ =>
    match runAttempt p st db attempt (times attempt) with
    | (.ok db2, st2) => .success db2 st2 attempt
    | (.error e, st2) => runLoop p times remaining st2 db (attempt + 1) (some e)

/-- The value `BaseETL.run` returns together with the final database, object
state and the final value of the `attempt` counter. -/
structure RunResult where
  ok : Bool
  db : DB
  st : BaseETLState
  attempts : Nat

/-- `BaseETL.run(max_retries, backoff_factor)`: run the retry loop (`attempt`
starts at 0, so `max(max_retries, 0)` iterations can happen); on success
return `True`; once retries are exhausted, write the `'failure'` checkpoint
and run record in a fresh transaction at instant `ftime` — and if that
finalization itself raises, swallow the exception (rolling the fresh
transaction back) — then return `False`. -/
def run (p : Pipeline Raw) (times : Nat → Nat) (ftime : Nat) (st : BaseETLState)
    (db : DB) (max_retries : Int) : RunResult :=
  match runLoop p times max_retries.toNat st db 0 none with
  | .success db2 st2 a => { ok := true, db := db2, st := st2, attempts := a }
  | .exhausted db2 st2 a last_error =>
    match p.finalize_err with
    | some _ => { ok := false, db := db2, st := st2, attempts := a }
    | none =>
      let db3 := update_checkpoint st2 db2 "failure" last_error ftime
      let db4 := create_run_record st2 db3 "failure" last_error ftime
      { ok := false, db := db4, st := st2, attempts := a }

/-- `apply_checkpoint_update` never touches the row's source identity. -/
theorem apply_checkpoint_update_source (st : BaseETLState) (status : String)
    (err : Option String) (now : Nat) (c : ETLCheckpoint) :
    (apply_checkpoint_update st status err now c).source = c.source := by
  unfold apply_checkpoint_update
  by_cases h1 : (status == "success") = true
  · simp [h1]
  · by_cases h2 : (status == "failure") = true
    · simp [h1, h2]
    · simp [h1, h2]

/-- `find?` on a split list whose left part has no match finds the split
element when it matches. -/
theorem find?_split (p : α → Bool) (l1 l2 : List α) (c : α)
    (hl1 : ∀ x ∈ l1, p x = false) (hc : p c = true) :
    (l1 ++ c :: l2).find? p = some c := by
  induction l1 with
  | nil => simpa using List.find?_cons_of_pos l2 hc
  | cons a as ih =>
    have ha : p a = false := hl1 a (by simp)
    rw [List.cons_append, List.find?_cons_of_neg _ (by simp [ha])]
    exact ih (fun x hx => hl1 x (by simp [hx]))

/-- `updateFirst` on such a split rewrites exactly the split element. -/
theorem updateFirst_split (p : α → Bool) (f : α → α) (l1 l2 : List α) (c : α)
    (hl1 : ∀ x ∈ l1, p x = false) (hc : p c = true) :
    updateFirst p f (l1 ++ c :: l2) = l1 ++ f c :: l2 := by
  induction l1 with
  | nil => simp [updateFirst, hc]
  | cons a as ih =>
    have ha : p a = false := hl1 a (by simp)
    simp only [List.cons_append, updateFirst, ha, Bool.false_eq_true, if_false]
    exact congrArg (a :: ·) (ih (fun x hx => hl1 x (by simp [hx])))

/-- Field-by-field description of `apply_checkpoint_update` for the two
status values the code passes, and the frame on `source`, `created_at` and
`run_metadata`. -/
theorem apply_checkpoint_update_fields (st : BaseETLState) (status : String)
    (err : Option String) (now : Nat) (c : ETLCheckpoint) :
    (apply_checkpoint_update st status err now c).source = c.source ∧
    (apply_checkpoint_update st status err now c).created_at = c.created_at ∧
    (apply_checkpoint_update st status err now c).run_metadata = c.run_metadata ∧
    (apply_checkpoint_update st status err now c).last_run_at = some now ∧
    (apply_checkpoint_update st status err now c).status = status ∧
    (apply_checkpoint_update st status err now c).records_processed = st.records_processed ∧
    (apply_checkpoint_update st status err now c).updated_at = now ∧
    (status = "success" →
      (apply_checkpoint_update st status err now c).last_success_at = some now ∧
      (apply_checkpoint_update st status err now c).error_message = none ∧
      (apply_checkpoint_update st status err now c).last_failure_at = c.last_failure_at) ∧
    (status = "failure" →
      (apply_checkpoint_update st status err now c).last_failure_at = some now ∧
      (apply_checkpoint_update st status err now c).error_message = err ∧
      (apply_checkpoint_update st status err now c).last_success_at = c.last_success_at) := by
  by_cases h1 : status = "success"
  · subst h1
    have e : apply_checkpoint_update st "success" err now c =
        { c with
          last_run_at := some now, status := "success",
          records_processed := st.records_processed, updated_at := now,
          last_success_at := some now, error_message := none } := by
      unfold apply_checkpoint_update
      rw [if_pos (by decide)]
    rw [e]
    exact ⟨rfl, rfl, rfl, rfl, rfl, rfl, rfl, fun _ => ⟨rfl, rfl, rfl⟩,
      fun h => absurd h (by decide)⟩
  · by_cases h2 : status = "failure"
    · subst h2
      have e : apply_checkpoint_update st "failure" err now c =
          { c with
            last_run_at := some now, status := "failure",
            records_processed := st.records_processed, updated_at := now,
            last_failure_at := some now, error_message := err } := by
        unfold apply_checkpoint_update
        rw [if_neg (by decide), if_pos (by decide)]
      rw [e]
      exact ⟨rfl, rfl, rfl, rfl, rfl, rfl, rfl, fun h => absurd h (by decide),
        fun _ => ⟨rfl, rfl, rfl⟩⟩
    · have e : apply_checkpoint_update st status err now c =
          { c with
            last_run_at := some now, status := status,
            records_processed := st.records_processed, updated_at := now } := by
        unfold apply_checkpoint_update
        rw [if_neg (by simp [h1]), if_neg (by simp [h2])]
      rw [e]
      exact ⟨rfl, rfl, rfl, rfl, rfl, rfl, rfl, fun h => absurd h h1,
        fun h => absurd h h2⟩

/-- C9: `update_checkpoint` on a database whose checkpoint table contains a
row for the source (split as `l1 ++ c :: l2`, `c` the first such row)
rewrites exactly that row in place — never deleting it, never touching the
other rows or the other tables — to the row
`apply_checkpoint_update st status err now c`, which keeps the source
identity, `created_at` and `run_metadata`, always updates `last_run_at`,
`status`, `records_processed` and `updated_at`, on `'success'` sets
`last_success_at` and clears `error_message` leaving `last_failure_at`
untouched, and on `'failure'` sets `last_failure_at` and `error_message`
leaving `last_success_at` untouched. -/
theorem update_checkpoint_frame (st : BaseETLState) (db : DB) (status : String)
    (err : Option String) (now : Nat) (l1 l2 : List ETLCheckpoint) (c : ETLCheckpoint)
    (hsplit : db.checkpoints = l1 ++ c :: l2)
    (hl1 : ∀ x ∈ l1, (x.source == st.source_name) = false)
    (hc : c.source = st.source_name) :
    (update_checkpoint st db status err now).checkpoints =
      l1 ++ apply_checkpoint_update st status err now c :: l2 ∧
    (update_checkpoint st db status err now).checkpoints.length = db.checkpoints.length ∧
    (update_checkpoint st db status err now).coins = db.coins ∧
    (update_checkpoint st db status err now).etl_runs = db.etl_runs ∧
    (update_checkpoint st db status err now).raw_coingecko = db.raw_coingecko ∧
    ((apply_checkpoint_update st status err now c).source = c.source ∧
     (apply_checkpoint_update st status err now c).created_at = c.created_at ∧
     (apply_checkpoint_update st status err now c).run_metadata = c.run_metadata ∧
     (apply_checkpoint_update st status err now c).last_run_at = some now ∧
     (apply_checkpoint_update st status err now c).status = status ∧
     (apply_checkpoint_update st status err now c).records_processed = st.records_processed ∧
     (apply_checkpoint_update st status err now c).updated_at = now ∧
     (status = "success" →
       (apply_checkpoint_update st status err now c).last_success_at = some now ∧
       (apply_checkpoint_update st status err now c).error_message = none ∧
       (apply_checkpoint_update st status err now c).last_failure_at = c.last_failure_at) ∧
     (status = "failure" →
       (apply_checkpoint_update st status err now c).last_failure_at = some now ∧
       (apply_checkpoint_update st status err now c).error_message = err ∧
       (apply_checkpoint_update st status err now c).last_success_at = c.last_success_at)) := by
  have hcb : (c.source == st.source_name) = true := by simp [hc]
  have hfind : db.checkpoints.find? (fun x => x.source == st.source_name) = some c := by
    rw [hsplit]
    exact find?_split _ l1 l2 c hl1 hcb
  have hup : (update_checkpoint st db status err now).checkpoints =
      l1 ++ apply_checkpoint_update st status err now c :: l2 := by
    unfold update_checkpoint
    rw [hfind]
    show updateFirst (fun x => x.source == st.source_name)
      (apply_checkpoint_update st status err now) db.checkpoints = _
    rw [hsplit]
    exact updateFirst_split _ _ l1 l2 c hl1 hcb
  have hframe : (update_checkpoint st db status err now).coins = db.coins ∧
      (update_checkpoint st db status err now).etl_runs = db.etl_runs ∧
      (update_checkpoint st db status err now).raw_coingecko = db.raw_coingecko := by
    unfold update_checkpoint
    rw [hfind]
    exact ⟨rfl, rfl, rfl⟩
  have hlen : (update_checkpoint st db status err now).checkpoints.length =
      db.checkpoints.length := by
    rw [hup, hsplit]
    simp
  exact ⟨hup, hlen, hframe.1, hframe.2.1, hframe.2.2,
    apply_checkpoint_update_fields st status err now c⟩

/-- A concrete pre-existing checkpoint row for the `coingecko` source. -/
def cpGecko : ETLCheckpoint :=
  { source := "coingecko", last_run_at := none, last_success_at := none,
    last_failure_at := some 5, status := "running", records_processed := 0,
    error_message := some "boom", run_metadata := none,
    created_at := 0, updated_at := 0 }

/-- A concrete `BaseETL` object state for the `coingecko` source. -/
def stGecko : BaseETLState :=
  { source_name := "coingecko", run_id := "run-1", started_at := 0,
    records_processed := 42 }

/-- A database holding exactly the checkpoint row `cpGecko`. -/
def dbOne : DB :=
  { coins := [], checkpoints := [cpGecko], etl_runs := [], raw_coingecko := [] }

/-- C9 witness: updating `cpGecko` to `'success'` at instant 7 rewrites the
single row in place, keeps the table length, and leaves `last_failure_at`
untouched. -/
theorem update_checkpoint_frame_witness :
    (update_checkpoint stGecko dbOne "success" none 7).checkpoints =
      [] ++ apply_checkpoint_update stGecko "success" none 7 cpGecko :: [] ∧
    (update_checkpoint stGecko dbOne "success" none 7).checkpoints.length =
      dbOne.checkpoints.length ∧
    (apply_checkpoint_update stGecko "success" none 7 cpGecko).last_failure_at =
      cpGecko.last_failure_at := by
  have h := update_checkpoint_frame stGecko dbOne "success" none 7 [] [] cpGecko
    rfl (by simp) rfl
  obtain ⟨hA, hB, _, _, _, _, _, _, _, _, _, _, hS, _⟩ := h
  exact ⟨hA, hB, (hS rfl).2.2⟩

/-- `find?` after `updateFirst` with a match-preserving rewrite finds the
rewritten element. -/
theorem find?_updateFirst (p : α → Bool) (f : α → α) (l : List α) (c : α)
    (hfind : l.find? p = some c) (hpf : ∀ x, p (f x) = p x) :
    (updateFirst p f l).find? p = some (f c) := by
  induction l with
  | nil => simp at hfind
  | cons a as ih =>
    by_cases hpa : p a = true
    · rw [List.find?_cons_of_pos _ hpa] at hfind
      injection hfind with hac
      subst hac
      show (updateFirst p f (a :: as)).find? p = some (f a)
      unfold updateFirst
      rw [if_pos hpa]
      exact List.find?_cons_of_pos _ (by rw [hpf]; exact hpa)
    · have hpa' : p a = false := by
        cases hv : p a
        · rfl
        · exact absurd hv hpa
      rw [List.find?_cons_of_neg _ (by simp [hpa'])] at hfind
      show (updateFirst p f (a :: as)).find? p = some (f c)
      unfold updateFirst
      rw [if_neg (by simp [hpa'])]
      rw [List.find?_cons_of_neg _ (by simp [hpa'])]
      exact ih hfind

/-- `find?` skips a prefix with no match. -/
theorem find?_append_none (p : α → Bool) (l1 l2 : List α)
    (h : l1.find? p = none) :
    (l1 ++ l2).find? p = l2.find? p := by
  induction l1 with
  | nil => rfl
  | cons a as ih =>
    rw [List.find?_cons] at h
    cases hpa : p a with
    | true => rw [hpa] at h; simp at h
    | false =>
      rw [hpa] at h
      rw [List.cons_append, List.find?_cons_of_neg _ (by simp [hpa])]
      exact ih h

/-- `update_checkpoint` only writes the checkpoint table. -/
theorem update_checkpoint_other_tables (st : BaseETLState) (db : DB) (status : String)
    (err : Option String) (now : Nat) :
    (update_checkpoint st db status err now).coins = db.coins ∧
    (update_checkpoint st db status err now).etl_runs = db.etl_runs ∧
    (update_checkpoint st db status err now).raw_coingecko = db.raw_coingecko := by
  unfold update_checkpoint
  split
  · exact ⟨rfl, rfl, rfl⟩
  · exact ⟨rfl, rfl, rfl⟩

/-- After `update_checkpoint st db "failure" err now`, the source's checkpoint
row (first match) shows `status = 'failure'`, the given `error_message` and
`last_failure_at = now`, whether the row pre-existed or was created. -/
theorem update_checkpoint_find_failure (st : BaseETLState) (db : DB)
    (err : Option String) (now : Nat) :
    ∃ c, (update_checkpoint st db "failure" err now).checkpoints.find?
        (fun x => x.source == st.source_name) = some c ∧
      c.status = "failure" ∧ c.error_message = err ∧ c.last_failure_at = some now := by
  unfold update_checkpoint
  cases hf : db.checkpoints.find? (fun x => x.source == st.source_name) with
  | some c0 =>
    simp only [Option.isSome_some, if_true]
    refine ⟨apply_checkpoint_update st "failure" err now c0, ?_, ?_⟩
    · exact find?_updateFirst _ _ _ c0 hf
        (fun x => by rw [(apply_checkpoint_update_fields st "failure" err now x).1])
    · have h := apply_checkpoint_update_fields st "failure" err now c0
      obtain ⟨-, -, -, -, hst, -, -, -, hfl⟩ := h
      obtain ⟨h1, h2, -⟩ := hfl rfl
      exact ⟨hst, h2, h1⟩
  | none =>
    simp only [Option.isSome_none, Bool.false_eq_true, if_false]
    have e1 : (("failure" : String) == "success") = false := by decide
    have e2 : (("failure" : String) == "failure") = true := by decide
    simp only [e1, e2, Bool.false_eq_true, if_false, if_true]
    refine ⟨{
        source := st.source_name, last_run_at := some now,
        last_success_at := none, last_failure_at := some now,
        status := "failure", records_processed := st.records_processed,
        error_message := err, run_metadata := none,
        created_at := now, updated_at := now }, ?_, rfl, rfl, rfl⟩
    show (db.checkpoints ++ [_]).find? _ = _
    rw [find?_append_none _ _ _ hf]
    exact List.find?_cons_of_pos _ (by simp)

/-- After `update_checkpoint st db "success" none now`, the source's checkpoint
row (first match) shows `status = 'success'`, a cleared `error_message` and
`last_success_at = now`, whether the row pre-existed or was created. -/
theorem update_checkpoint_find_success (st : BaseETLState) (db : DB) (now : Nat) :
    ∃ c, (update_checkpoint st db "success" none now).checkpoints.find?
        (fun x => x.source == st.source_name) = some c ∧
      c.status = "success" ∧ c.error_message = none ∧ c.last_success_at = some now := by
  unfold update_checkpoint
  cases hf : db.checkpoints.find? (fun x => x.source == st.source_name) with
  | some c0 =>
    simp only [Option.isSome_some, if_true]
    refine ⟨apply_checkpoint_update st "success" none now c0, ?_, ?_⟩
    · exact find?_updateFirst _ _ _ c0 hf
        (fun x => by rw [(apply_checkpoint_update_fields st "success" none now x).1])
    · have h := apply_checkpoint_update_fields st "success" none now c0
      obtain ⟨-, -, -, -, hst, -, -, hsc, -⟩ := h
      obtain ⟨h1, h2, -⟩ := hsc rfl
      exact ⟨hst, h2, h1⟩
  | none =>
    simp only [Option.isSome_none, Bool.false_eq_true, if_false]
    have e1 : (("success" : String) == "success") = true := by decide
    have e2 : (("success" : String) == "failure") = false := by decide
    simp only [e1, e2, Bool.false_eq_true, if_false, if_true]
    refine ⟨{
        source := st.source_name, last_run_at := some now,
        last_success_at := some now, last_failure_at := none,
        status := "success", records_processed := st.records_processed,
        error_message := none, run_metadata := none,
        created_at := now, updated_at := now }, ?_, rfl, rfl, rfl⟩
    show (db.checkpoints ++ [_]).find? _ = _
    rw [find?_append_none _ _ _ hf]
    exact List.find?_cons_of_pos _ (by simp)

/-- `create_run_record` only appends to the run-history table. -/
theorem create_run_record_effect (st : BaseETLState) (db : DB) (status : String)
    (err : Option String) (now : Nat) :
    (create_run_record st db status err now).checkpoints = db.checkpoints ∧
    (create_run_record st db status err now).coins = db.coins ∧
    (create_run_record st db status err now).raw_coingecko = db.raw_coingecko ∧
    (create_run_record st db status err now).etl_runs = db.etl_runs ++ [{
      run_id := st.run_id, source := st.source_name, status := status,
      records_processed := st.records_processed,
      duration_seconds := (now : Int) - (st.started_at : Int),
      started_at := st.started_at, completed_at := now, error_message := err }] :=
  ⟨rfl, rfl, rfl, rfl⟩

/-- When `extract` raises on every attempt, each loop iteration rolls back to
the same database and object state, and after `n + 1` iterations the loop is
exhausted with the attempt counter advanced by `n + 1` and `last_error` the
message of the last attempt. -/
theorem runLoop_all_fail {Raw : Type} (p : Pipeline Raw) (times : Nat → Nat)
    (errs : Nat → String) (hex : ∀ k, p.extract k = Except.error (errs k)) :
    ∀ (n attempt : Nat) (st : BaseETLState) (db : DB) (le : Option String),
    runLoop p times (n + 1) st db attempt le =
      LoopResult.exhausted db st (attempt + n + 1) (some (errs (attempt + n))) := by
  intro n
  induction n with
  | zero =>
    intro attempt st db le
    have ha : runAttempt p st db attempt (times attempt) = (.error (errs attempt), st) := by
      unfold runAttempt
      rw [hex attempt]
    show runLoop p times (0 + 1) st db attempt le = _
    unfold runLoop
    rw [ha]
    rfl
  | succ m ih =>
    intro attempt st db le
    have ha : runAttempt p st db attempt (times attempt) = (.error (errs attempt), st) := by
      unfold runAttempt
      rw [hex attempt]
    show runLoop p times (m + 1 + 1) st db attempt le = _
    unfold runLoop
    rw [ha]
    show runLoop p times (m + 1) st db (attempt + 1) (some (errs attempt)) = _
    rw [ih (attempt + 1) st db (some (errs attempt))]
    congr 2
    · omega
    · congr 1
      omega

/-- C1: for `max_retries ≥ 1` and a pipeline whose extract step raises on
every attempt (message `errs k` on attempt `k`), `run` makes exactly
`max_retries` attempts and returns `false`; the source's checkpoint row ends
with `status = 'failure'` and `error_message` equal to the last attempt's
error; and, the `run_id` being fresh, exactly one `ETLRun` row exists for it
and every row for it has `status = 'failure'` (so none has `'success'`). -/
theorem run_retry_termination {Raw : Type} (p : Pipeline Raw) (times : Nat → Nat)
    (ftime : Nat) (st : BaseETLState) (db : DB) (max_retries : Int) (errs : Nat → String)
    (hmr : 1 ≤ max_retries)
    (hex : ∀ k, p.extract k = Except.error (errs k))
    (hfin : p.finalize_err = none)
    (hfresh : ∀ r ∈ db.etl_runs, (r.run_id == st.run_id) = false) :
    (run p times ftime st db max_retries).ok = false ∧
    ((run p times ftime st db max_retries).attempts : Int) = max_retries ∧
    (∃ c, (run p times ftime st db max_retries).db.checkpoints.find?
        (fun x => x.source == st.source_name) = some c ∧
      c.status = "failure" ∧
      c.error_message = some (errs (max_retries.toNat - 1))) ∧
    ((run p times ftime st db max_retries).db.etl_runs.filter
        (fun r => r.run_id == st.run_id)).length = 1 ∧
    (∀ r ∈ (run p times ftime st db max_retries).db.etl_runs,
      (r.run_id == st.run_id) = true → r.status = "failure") := by
  obtain ⟨m, hm⟩ : ∃ m, max_retries.toNat = m + 1 := ⟨max_retries.toNat - 1, by omega⟩
  have hloop : runLoop p times max_retries.toNat st db 0 none =
      LoopResult.exhausted db st (0 + m + 1) (some (errs (0 + m))) := by
    rw [hm]
    exact runLoop_all_fail p times errs hex m 0 st db none
  have hlast : errs (0 + m) = errs (max_retries.toNat - 1) := by
    congr 1
    omega
  have hrun : run p times ftime st db max_retries =
      { ok := false,
        db := create_run_record st
          (update_checkpoint st db "failure" (some (errs (0 + m))) ftime)
          "failure" (some (errs (0 + m))) ftime,
        st := st, attempts := 0 + m + 1 } := by
    unfold run
    rw [hloop, hfin]
  rw [hrun]
  refine ⟨rfl, by show ((0 + m + 1 : Nat) : Int) = max_retries; omega, ?_, ?_, ?_⟩
  · obtain ⟨c, hc1, hc2, hc3, -⟩ :=
      update_checkpoint_find_failure st db (some (errs (0 + m))) ftime
    refine ⟨c, ?_, hc2, by rw [← hlast]; exact hc3⟩
    show (create_run_record st _ "failure" _ ftime).checkpoints.find? _ = some c
    rw [(create_run_record_effect st _ "failure" _ ftime).1]
    exact hc1
  · show ((create_run_record st _ "failure" _ ftime).etl_runs.filter _).length = 1
    rw [(create_run_record_effect st _ "failure" _ ftime).2.2.2,
      (update_checkpoint_other_tables st db "failure" _ ftime).2.1,
      List.filter_append]
    have h1 : db.etl_runs.filter (fun r => r.run_id == st.run_id) = [] := by
      rw [List.filter_eq_nil]
      intro a ha
      simp [hfresh a ha]
    rw [h1]
    simp
  · intro r hr hid
    rw [(create_run_record_effect st _ "failure" _ ftime).2.2.2,
      (update_checkpoint_other_tables st db "failure" _ ftime).2.1] at hr
    rcases List.mem_append.mp hr with hin | hnew
    · rw [hfresh r hin] at hid
      exact absurd hid (by simp)
    · rcases List.mem_singleton.mp hnew with rfl
      rfl

/-- A pipeline whose extract step raises `"network down"` on every attempt. -/
def failPipe : Pipeline Unit :=
  { extract := fun _ => Except.error "network down",
    load_raw := fun _ db _ => Except.ok db,
    transform := fun _ _ => Except.ok [],
    load_exec_err := fun _ => none,
    commit_err := fun _ => none,
    finalize_err := none }

/-- The empty database. -/
def dbEmpty : DB := { coins := [], checkpoints := [], etl_runs := [], raw_coingecko := [] }

/-- C1 witness: with `max_retries = 3` and the always-failing extractor,
`run` returns `false` after exactly 3 attempts and exactly one run record
exists for the fresh `run_id`. -/
theorem run_retry_termination_witness :
    (run failPipe (fun _ => 0) 9 stGecko dbEmpty 3).ok = false ∧
    ((run failPipe (fun _ => 0) 9 stGecko dbEmpty 3).attempts : Int) = 3 ∧
    ((run failPipe (fun _ => 0) 9 stGecko dbEmpty 3).db.etl_runs.filter
        (fun r => r.run_id == stGecko.run_id)).length = 1 := by
  have h := run_retry_termination failPipe (fun _ => 0) 9 stGecko dbEmpty 3
    (fun _ => "network down") (by norm_num) (fun _ => rfl) rfl (by simp [dbEmpty])
  exact ⟨h.1, h.2.1, h.2.2.2.1⟩

/-- C2: whatever the behaviour of extract, transform, load_raw and the
persistence layer — every one of them allowed to raise, modelled by their
`Except`/`Option` error components — `run` is a total function into a `Bool`
result (no exception component exists in its type, so nothing propagates to
the caller): either some attempt succeeds and it returns `true`, or the loop
exhausts and it returns `false`; and when the finalization of the
checkpoint/run record itself fails, the failure is swallowed (the
finalization transaction rolls back, the database stays as the loop left it)
and the already-decided `false` is still returned. -/
theorem run_returns_bool_never_raises {Raw : Type} (p : Pipeline Raw)
    (times : Nat → Nat) (ftime : Nat) (st : BaseETLState) (db : DB)
    (max_retries : Int) :
    (∃ db2 st2 a, runLoop p times max_retries.toNat st db 0 none =
        LoopResult.success db2 st2 a ∧
      run p times ftime st db max_retries =
        { ok := true, db := db2, st := st2, attempts := a }) ∨
    (∃ db2 st2 a e, runLoop p times max_retries.toNat st db 0 none =
        LoopResult.exhausted db2 st2 a e ∧
      (run p times ftime st db max_retries).ok = false ∧
      (p.finalize_err ≠ none → run p times ftime st db max_retries =
        { ok := false, db := db2, st := st2, attempts := a })) := by
  cases h : runLoop p times max_retries.toNat st db 0 none with
  | success db2 st2 a =>
    left
    exact ⟨db2, st2, a, rfl, by unfold run; rw [h]⟩
  | exhausted db2 st2 a e =>
    right
    refine ⟨db2, st2, a, e, rfl, ?_, ?_⟩
    · unfold run
      rw [h]
      cases hf : p.finalize_err <;> rfl
    · intro hne
      unfold run
      rw [h]
      cases hf : p.finalize_err with
      | none => exact absurd hf hne
      | some msg => rfl

/-- C8: called with `max_retries ≤ 0`, the `while attempt < max_retries` loop
body never runs — the result is the same for any two pipelines (extract,
transform and the loads are never invoked) — and `run` returns `false` with
the attempt counter still 0, a `'failure'` checkpoint, and one `'failure'`
run record whose `error_message` is null since `last_error` was never set. -/
theorem run_nonpositive_retries {Raw : Type} (p q : Pipeline Raw)
    (times qtimes : Nat → Nat) (ftime : Nat) (st : BaseETLState) (db : DB)
    (max_retries : Int)
    (hmr : max_retries ≤ 0)
    (hfin : p.finalize_err = none) (hqfin : q.finalize_err = none) :
    run p times ftime st db max_retries = run q qtimes ftime st db max_retries ∧
    (run p times ftime st db max_retries).ok = false ∧
    (run p times ftime st db max_retries).attempts = 0 ∧
    (∃ c, (run p times ftime st db max_retries).db.checkpoints.find?
        (fun x => x.source == st.source_name) = some c ∧
      c.status = "failure" ∧ c.error_message = none) ∧
    (run p times ftime st db max_retries).db.etl_runs = db.etl_runs ++ [{
      run_id := st.run_id, source := st.source_name, status := "failure",
      records_processed := st.records_processed,
      duration_seconds := (ftime : Int) - (st.started_at : Int),
      started_at := st.started_at, completed_at := ftime,
      error_message := none }] := by
  have hton : max_retries.toNat = 0 := by omega
  have hrun : run p times ftime st db max_retries =
      { ok := false,
        db := create_run_record st (update_checkpoint st db "failure" none ftime)
          "failure" none ftime,
        st := st, attempts := 0 } := by
    unfold run
    rw [hton]
    show (match LoopResult.exhausted db st 0 none with
      | LoopResult.success db2 st2 a => ({ ok := true, db := db2, st := st2, attempts := a } : RunResult)
      | LoopResult.exhausted db2 st2 a last_error =>
        match p.finalize_err with
        | some _ => { ok := false, db := db2, st := st2, attempts := a }
        | none =>
          let db3 := update_checkpoint st2 db2 "failure" last_error ftime
          let db4 := create_run_record st2 db3 "failure" last_error ftime
          { ok := false, db := db4, st := st2, attempts := a }) = _
    rw [hfin]
  have hqrun : run q qtimes ftime st db max_retries =
      { ok := false,
        db := create_run_record st (update_checkpoint st db "failure" none ftime)
          "failure" none ftime,
        st := st, attempts := 0 } := by
    unfold run
    rw [hton]
    show (match LoopResult.exhausted db st 0 none with
      | LoopResult.success db2 st2 a => ({ ok := true, db := db2, st := st2, attempts := a } : RunResult)
      | LoopResult.exhausted db2 st2 a last_error =>
        match q.finalize_err with
        | some _ => { ok := false, db := db2, st := st2, attempts := a }
        | none =>
          let db3 := update_checkpoint st2 db2 "failure" last_error ftime
          let db4 := create_run_record st2 db3 "failure" last_error ftime
          { ok := false, db := db4, st := st2, attempts := a }) = _
    rw [hqfin]
  rw [hrun, hqrun]
  refine ⟨rfl, rfl, rfl, ?_, ?_⟩
  · obtain ⟨c, hc1, hc2, hc3, -⟩ := update_checkpoint_find_failure st db none ftime
    refine ⟨c, ?_, hc2, hc3⟩
    show (create_run_record st _ "failure" none ftime).checkpoints.find? _ = some c
    rw [(create_run_record_effect st _ "failure" none ftime).1]
    exact hc1
  · show (create_run_record st _ "failure" none ftime).etl_runs = _
    rw [(create_run_record_effect st _ "failure" none ftime).2.2.2,
      (update_checkpoint_other_tables st db "failure" none ftime).2.1]

/-! ## Orchestrator (`services/etl_service.py`)

`run_single_source` constructs a fresh ETL instance and calls `etl.run()`
with the default `max_retries = 3`; the fresh per-run identity
(`run_id`, `started_at`, counters) and behaviour of that instance are the
`SourceRun` bundle registered for the source. `run_all_sources` collects one
boolean per registered source; the `parallel=True` branch computes the same
per-source booleans through a worker pool and catches a task's exception as
`False` — in this embedding `run` is total (C2), so the dispatch-level
`except` branch is unreachable and the sequential fold gives each source's
entry exactly as the dict receives it. -/

structure SourceRun (Raw : Type) where
  pipeline : Pipeline Raw
  times : Nat → Nat
  ftime : Nat
  st : BaseETLState

namespace ETLService

/-- `ETLService.run_single_source`: unknown sources fail fast with `False`;
otherwise a fresh instance runs with the default `max_retries = 3`. Returns
the boolean paired with the database it leaves behind. -/
def run_single_source {Raw : Type} (etl_sources : List (String × SourceRun Raw))
    (source_name : String) (db : DB) : Bool × DB :=
  match etl_sources.find? (fun s => s.1 == source_name) with
  | none => (false, db)
  | some entry =>
    let r := run entry.2.pipeline entry.2.times entry.2.ftime entry.2.st db 3
    (r.ok, r.db)

/-- The loop body of `run_all_sources`: record the source's boolean in the
result mapping (`results[source] = ...`). -/
def run_all_step {Raw : Type} (etl_sources : List (String × SourceRun Raw))
    (acc : List (String × Bool) × DB) (entry : String × SourceRun Raw) :
    List (String × Bool) × DB :=
  let r := run_single_source etl_sources entry.1 acc.2
  (acc.1 ++ [(entry.1, r.1)], r.2)

/-- `ETLService.run_all_sources`: one entry per registered source. -/
def run_all_sources {Raw : Type} (etl_sources : List (String × SourceRun Raw))
    (db : DB) : List (String × Bool) × DB :=
  etl_sources.foldl (run_all_step etl_sources) ([], db)

end ETLService

/-- The result mapping of `run_all_sources` has exactly one entry per
registered source, in registration order, whatever each run does. -/
theorem run_all_sources_keys {Raw : Type} (etl_sources : List (String × SourceRun Raw))
    (db : DB) :
    ((ETLService.run_all_sources etl_sources db).1).map Prod.fst =
      etl_sources.map Prod.fst := by
  unfold ETLService.run_all_sources
  suffices h : ∀ (specs : List (String × SourceRun Raw)) (acc : List (String × Bool)) (d : DB),
      ((specs.foldl (ETLService.run_all_step etl_sources) (acc, d)).1).map Prod.fst =
        acc.map Prod.fst ++ specs.map Prod.fst by
    simpa using h etl_sources [] db
  intro specs
  induction specs with
  | nil => intro acc d; simp
  | cons e rest ih =>
    intro acc d
    rw [List.foldl_cons]
    show ((rest.foldl (ETLService.run_all_step etl_sources)
      (acc ++ [(e.1, (ETLService.run_single_source etl_sources e.1 d).1)],
       (ETLService.run_single_source etl_sources e.1 d).2)).1).map Prod.fst = _
    rw [ih]
    simp

/-- A run whose extract raises on every attempt returns `False`, whatever the
database it starts from and whatever its finalization does. -/
theorem run_ok_false_of_extract_fails {Raw : Type} (p : Pipeline Raw)
    (times : Nat → Nat) (ftime : Nat) (st : BaseETLState) (d : DB) (mr : Int)
    (errs : Nat → String)
    (hex : ∀ k, p.extract k = Except.error (errs k)) :
    (run p times ftime st d mr).ok = false := by
  obtain ⟨d2, s2, aa, ee, hl⟩ :
      ∃ d2 s2 aa ee, runLoop p times mr.toNat st d 0 none =
        LoopResult.exhausted d2 s2 aa ee := by
    cases hn : mr.toNat with
    | zero => exact ⟨d, st, 0, none, rfl⟩
    | succ m => exact ⟨d, st, 0 + m + 1, some (errs (0 + m)),
        runLoop_all_fail p times errs hex m 0 st d none⟩
  unfold run
  rw [hl]
  cases hf : p.finalize_err <;> rfl

/-- A run whose first attempt fully succeeds returns `True` and leaves the
source's checkpoint row with `status = 'success'`, cleared `error_message`
and `last_success_at` the attempt's instant. -/
theorem run_first_attempt_success {Raw : Type} (p : Pipeline Raw) (times : Nat → Nat)
    (ftime : Nat) (st : BaseETLState) (d : DB) (raw : List Raw)
    (norm : List CoinRecord) (d1 : DB)
    (hex : p.extract 0 = Except.ok raw)
    (hlr : p.load_raw 0 d raw = Except.ok d1)
    (htr : p.transform 0 raw = Except.ok norm)
    (hle : p.load_exec_err 0 = none)
    (hco : p.commit_err 0 = none) :
    (run p times ftime st d 3).ok = true ∧
    ∃ c, (run p times ftime st d 3).db.checkpoints.find?
        (fun x => x.source == st.source_name) = some c ∧
      c.status = "success" ∧ c.error_message = none ∧
      c.last_success_at = some (times 0) := by
  have hatt : runAttempt p st d 0 (times 0) =
      (Except.ok (create_run_record
          { st with records_processed := st.records_processed + norm.length }
          (update_checkpoint
            { st with records_processed := st.records_processed + norm.length }
            { d1 with coins := upsert_batch d1.coins norm (times 0) }
            "success" none (times 0))
          "success" none (times 0)),
        { st with records_processed := st.records_processed + norm.length }) := by
    unfold runAttempt
    simp only [hex, hlr, htr, hle, hco]
  have hloop : runLoop p times 3 st d 0 none =
      LoopResult.success (create_run_record
          { st with records_processed := st.records_processed + norm.length }
          (update_checkpoint
            { st with records_processed := st.records_processed + norm.length }
            { d1 with coins := upsert_batch d1.coins norm (times 0) }
            "success" none (times 0))
          "success" none (times 0))
        { st with records_processed := st.records_processed + norm.length } 0 := by
    show runLoop p times (2 + 1) st d 0 none = _
    unfold runLoop
    rw [hatt]
  have hton : (3 : Int).toNat = 3 := rfl
  have hrun : run p times ftime st d 3 =
      { ok := true,
        db := create_run_record
          { st with records_processed := st.records_processed + norm.length }
          (update_checkpoint
            { st with records_processed := st.records_processed + norm.length }
            { d1 with coins := upsert_batch d1.coins norm (times 0) }
            "success" none (times 0))
          "success" none (times 0),
        st := { st with records_processed := st.records_processed + norm.length },
        attempts := 0 } := by
    unfold run
    rw [hton, hloop]
  rw [hrun]
  refine ⟨rfl, ?_⟩
  obtain ⟨c, hc1, hc2, hc3, hc4⟩ := update_checkpoint_find_success
    { st with records_processed := st.records_processed + norm.length }
    { d1 with coins := upsert_batch d1.coins norm (times 0) } (times 0)
  refine ⟨c, ?_, hc2, hc3, hc4⟩
  show (create_run_record _ _ "success" none _).checkpoints.find? _ = some c
  rw [(create_run_record_effect _ _ "success" none _).1]
  exact hc1

/-- C7: `run_all_sources` over the registry `[A, B]` yields one boolean entry
per registered source, each computed by that source's own run: with A's
extract raising on every attempt and B's first attempt fully succeeding, the
mapping is `{A ↦ false, B ↦ true}` — A's failure never aborts B's run — and
B's checkpoint row ends with `status = 'success'` and no error message. -/
theorem run_all_source_isolation {Raw : Type} (a b : String) (sA sB : SourceRun Raw)
    (db : DB) (errsA : Nat → String) (rawB : List Raw) (normB : List CoinRecord)
    (hab : a ≠ b)
    (hsb : sB.st.source_name = b)
    (hexA : ∀ k, sA.pipeline.extract k = Except.error (errsA k))
    (hexB : sB.pipeline.extract 0 = Except.ok rawB)
    (hlrB : ∀ d, ∃ d', sB.pipeline.load_raw 0 d rawB = Except.ok d')
    (htrB : sB.pipeline.transform 0 rawB = Except.ok normB)
    (hleB : sB.pipeline.load_exec_err 0 = none)
    (hcoB : sB.pipeline.commit_err 0 = none) :
    ((ETLService.run_all_sources [(a, sA), (b, sB)] db).1).map Prod.fst = [a, b] ∧
    (ETLService.run_all_sources [(a, sA), (b, sB)] db).1 = [(a, false), (b, true)] ∧
    (∃ c, (ETLService.run_all_sources [(a, sA), (b, sB)] db).2.checkpoints.find?
        (fun x => x.source == b) = some c ∧
      c.status = "success" ∧ c.error_message = none) := by
  have hfa : ([(a, sA), (b, sB)] : List (String × SourceRun Raw)).find?
      (fun s => s.1 == a) = some (a, sA) :=
    List.find?_cons_of_pos _ (by simp)
  have hfb : ([(a, sA), (b, sB)] : List (String × SourceRun Raw)).find?
      (fun s => s.1 == b) = some (b, sB) := by
    rw [List.find?_cons_of_neg _ (by simp [hab]), List.find?_cons_of_pos _ (by simp)]
  have hAok : (run sA.pipeline sA.times sA.ftime sA.st db 3).ok = false :=
    run_ok_false_of_extract_fails sA.pipeline sA.times sA.ftime sA.st db 3 errsA hexA
  have hstep1 : ETLService.run_all_step [(a, sA), (b, sB)] ([], db) (a, sA) =
      ([(a, false)], (run sA.pipeline sA.times sA.ftime sA.st db 3).db) := by
    unfold ETLService.run_all_step ETLService.run_single_source
    simp only [hfa, hAok, List.nil_append]
  obtain ⟨d1, hd1⟩ := hlrB (run sA.pipeline sA.times sA.ftime sA.st db 3).db
  have hB := run_first_attempt_success sB.pipeline sB.times sB.ftime sB.st
    (run sA.pipeline sA.times sA.ftime sA.st db 3).db rawB normB d1
    hexB hd1 htrB hleB hcoB
  have hstep2 : ETLService.run_all_step [(a, sA), (b, sB)]
      ([(a, false)], (run sA.pipeline sA.times sA.ftime sA.st db 3).db) (b, sB) =
      ([(a, false), (b, true)],
       (run sB.pipeline sB.times sB.ftime sB.st
         (run sA.pipeline sA.times sA.ftime sA.st db 3).db 3).db) := by
    unfold ETLService.run_all_step ETLService.run_single_source
    simp only [hfb, hB.1]
    rfl
  have hall : ETLService.run_all_sources [(a, sA), (b, sB)] db =
      ETLService.run_all_step [(a, sA), (b, sB)]
        (ETLService.run_all_step [(a, sA), (b, sB)] ([], db) (a, sA)) (b, sB) := rfl
  rw [hall, hstep1, hstep2]
  refine ⟨by simp, rfl, ?_⟩
  obtain ⟨c, hc1, hc2, hc3, -⟩ := hB.2
  rw [hsb] at hc1
  exact ⟨c, hc1, hc2, hc3⟩

/-- A pipeline that succeeds on every attempt (extracts one item,
transforms to no records). -/
def okPipe : Pipeline Unit :=
  { extract := fun _ => Except.ok [()],
    load_raw := fun _ db _ => Except.ok db,
    transform := fun _ _ => Except.ok [],
    load_exec_err := fun _ => none,
    commit_err := fun _ => none,
    finalize_err := none }

/-- A fresh `BaseETL` object state for the `coinpaprika` source. -/
def stPaprika : BaseETLState :=
  { source_name := "coinpaprika", run_id := "run-0", started_at := 0,
    records_processed := 0 }

/-- The registered behaviour of failing source A. -/
def srcA : SourceRun Unit :=
  { pipeline := failPipe, times := fun _ => 0, ftime := 0, st := stPaprika }

/-- The registered behaviour of succeeding source B. -/
def srcB : SourceRun Unit :=
  { pipeline := okPipe, times := fun _ => 1, ftime := 1, st := stGecko }

/-- C7 witness: with failing `coinpaprika` and succeeding `coingecko`
registered, `run_all_sources` maps the first to `false` and the second to
`true`, and `coingecko`'s checkpoint shows `status = 'success'`. -/
theorem run_all_source_isolation_witness :
    (ETLService.run_all_sources [("coinpaprika", srcA), ("coingecko", srcB)]
      dbEmpty).1 = [("coinpaprika", false), ("coingecko", true)] ∧
    ∃ c, (ETLService.run_all_sources [("coinpaprika", srcA), ("coingecko", srcB)]
        dbEmpty).2.checkpoints.find? (fun x => x.source == "coingecko") = some c ∧
      c.status = "success" := by
  have h := run_all_source_isolation "coinpaprika" "coingecko" srcA srcB dbEmpty
    (fun _ => "network down") [()] [] (by decide) rfl (fun _ => rfl) rfl
    (fun d => ⟨d, rfl⟩) rfl rfl rfl
  obtain ⟨-, hmap, c, hc1, hc2, -⟩ := h
  exact ⟨hmap, c, hc1, hc2⟩

/-- C8 witness: with `max_retries = 0`, two pipelines with opposite attempt
behaviour produce the identical result, which is `false` with zero attempts. -/
theorem run_nonpositive_retries_witness :
    run failPipe (fun _ => 0) 5 stGecko dbEmpty 0 =
      run okPipe (fun _ => 1) 5 stGecko dbEmpty 0 ∧
    (run failPipe (fun _ => 0) 5 stGecko dbEmpty 0).ok = false ∧
    (run failPipe (fun _ => 0) 5 stGecko dbEmpty 0).attempts = 0 := by
  have h := run_nonpositive_retries failPipe okPipe (fun _ => 0) (fun _ => 1) 5
    stGecko dbEmpty 0 (by norm_num) rfl rfl
  exact ⟨h.1, h.2.1, h.2.2.1⟩
